import Mathlib

/-!
Verification development for a small HTTP/1.1 server written in Rust
(request parser built on nom, response serializer with optional gzip,
string-dispatch router, per-connection keep-alive loop).

Modelling conventions:
* Byte buffers (`&[u8]`, `Vec<u8>`) are modelled as `List Char`, one `Char`
  per byte; all inputs of interest are ASCII.  Rust `String`s are Lean
  `String`s; `std::str::from_utf8(..).to_string()` becomes `String.mk`.
* `HashMap<String, String>` is modelled as an association list with unique
  keys (`hm_insert` replaces the value of an existing key, like
  `HashMap::insert`); `BTreeSet<Headers>` is modelled as a list kept sorted
  by the derived order, with `hs_insert` as `BTreeSet::insert`.
* Fallible nom parsers return `Option (remaining, value)`, mirroring
  `IResult` with the error detail dropped (the program only formats it).
* A Rust panic (out-of-bounds index on `Vec`/`HashMap`, `unimplemented!`)
  is modelled as `none` of an `Option`-valued function.
* The async file system used by the `files` routes is modelled as an
  updatable key-to-bytes store threaded through the router.
-/

/-- Method (header.rs): closed enumeration GET / POST. -/
inductive Method where
  | Get
  | Post
deriving DecidableEq, Repr

/-- From<&str> for Method (header.rs): `unimplemented!` on any other token is
modelled as `none`; the callers only ever pass "GET" or "POST". -/
def Method.from_str (value : String) : Option Method :=
  if value = "GET" then some Method.Get
  else if value = "POST" then some Method.Post
  else none

/-- Version (header.rs): closed enumeration, only HTTP/1.1. -/
inductive Version where
  | Http11
deriving DecidableEq, Repr

/-- Version::text (header.rs). -/
def Version.text : Version → String
  | Version.Http11 => "HTTP/1.1"

/-- From<&str> for Version (header.rs), `unimplemented!` modelled as `none`. -/
def Version.from_str (value : String) : Option Version :=
  if value = "HTTP/1.1" then some Version.Http11 else none

/-- Modelled from the spec: the `Encoding` enumeration lives in the crate's
`request` module (declared as `mod request` in main.rs), whose final source
file is not present under src/; per the spec it is a closed enumeration
currently containing only Gzip. -/
inductive Encoding where
  | Gzip
deriving DecidableEq, Repr

/-- Modelled from the spec: textual form of the negotiated encoding, used by
response.rs as the value of Accept-Encoding / Content-Encoding headers
("gzip"). -/
def Encoding.text : Encoding → String
  | Encoding.Gzip => "gzip"

/-- Url (header.rs): ordered path sections plus optional raw query string. -/
structure Url where
  sections : List String
  query : Option String
deriving DecidableEq, Repr

/-- str::split_once (Rust std): split at the first occurrence of `c`,
returning the parts before and after it, or `none` when `c` is absent. -/
def split_once (s : String) (c : Char) : Option (String × String) :=
  if c ∈ s.data then
    some (String.mk (s.data.takeWhile (fun a => a ≠ c)),
          String.mk ((s.data.dropWhile (fun a => a ≠ c)).drop 1))
  else none

/-- Field splitting on a single separator character over the raw characters:
every occurrence of `c` ends a field, empty fields are kept, and the empty
input yields one empty field — the semantics of Rust's str::split. -/
def split_chars (c : Char) : List Char → List String
  | [] => [""]
  | a :: rest =>
    let r := split_chars c rest
    if a = c then "" :: r
    else
      match r with
      | [] => [String.mk [a]]
      | s :: t => String.mk (a :: s.data) :: t

/-- str::split (Rust std) on a single-character pattern. -/
def rust_split (s : String) (c : Char) : List String :=
  split_chars c s.data

/-- From<&str> for Url (header.rs): split off the query at the first '?',
special-case the root "/", otherwise split the path on '/' and drop every
empty section. -/
def Url.from_str (value : String) : Url :=
  let p := match split_once value '?' with
    | none => (value, (none : Option String))
    | some (uri, query) => (uri, some query)
  let uri := p.1
  let query := p.2
  if uri = "/" then { sections := ["/"], query := query }
  else { sections := (rust_split uri '/').filter (fun s => s ≠ ""), query := query }

/-- HashMap<String, String> modelled as an association list with unique keys. -/
abbrev HeaderMap := List (String × String)

/-- HashMap::insert: replace the value of an existing key, else append. -/
def hm_insert (m : HeaderMap) (k v : String) : HeaderMap :=
  match m with
  | [] => [(k, v)]
  | (k', v') :: t => if k' = k then (k, v) :: t else (k', v') :: hm_insert t k v

/-- HashMap::get: first (unique) entry for the key, if any. -/
def hm_get (m : HeaderMap) (k : String) : Option String :=
  match m with
  | [] => none
  | (k', v') :: t => if k' = k then some v' else hm_get t k

/-- Modelled from the spec: the final `request` module (missing from src/)
carries the negotiated Accept-Encoding on the parsed header —
`request.header.accept_encoding` is read by processing.rs and response.rs.
Per the spec it is parsed from the `Accept-Encoding` request header by exact
token match ("gzip"), no quality values. -/
def negotiate_encoding (headers : HeaderMap) : Option Encoding :=
  match hm_get headers "Accept-Encoding" with
  | some v => if v = "gzip" then some Encoding.Gzip else none
  | none => none

/-- Header (header.rs): parsed request line plus header map.  The
`accept_encoding` field is the spec-modelled negotiated encoding carried by
the final `request` module (see `negotiate_encoding`). -/
structure Header where
  method : Method
  url : Url
  version : Version
  headers : HeaderMap
  accept_encoding : Option Encoding
deriving DecidableEq, Repr

/-- Request (header.rs): header plus optional raw body bytes. -/
structure Request where
  header : Header
  body : Option (List Char)
deriving DecidableEq, Repr

/-! nom combinators (complete versions), modelled structurally. -/

/-- nom tag_no_case: match `t` case-insensitively at the front of the input,
returning (remaining, matched input slice). -/
def tag_no_case : List Char → List Char → Option (List Char × List Char)
  | [], buf => some (buf, [])
  | _ :: _, [] => none
  | t :: ts, b :: bs =>
    if t.toLower = b.toLower then
      (tag_no_case ts bs).map (fun p => (p.1, b :: p.2))
    else none

/-- nom take_till: consume input until the predicate holds (or input ends);
never fails.  Returns (remaining, taken). -/
def take_till (p : Char → Bool) : List Char → List Char × List Char
  | [] => ([], [])
  | c :: rest =>
    if p c then (c :: rest, [])
    else
      let q := take_till p rest
      (q.1, c :: q.2)

/-- nom take_until " " (only used with the single-space pattern): consume up
to the first space, failing when no space occurs; the space is left in the
remaining input. -/
def take_until_space : List Char → Option (List Char × List Char)
  | [] => none
  | c :: rest =>
    if c = ' ' then some (c :: rest, [])
    else (take_until_space rest).map (fun p => (p.1, c :: p.2))

/-- nom character::complete::char. -/
def chr (c : Char) : List Char → Option (List Char × Char)
  | [] => none
  | b :: rest => if b = c then some (rest, c) else none

/-- parse_new_line (header.rs): `char('\r')` then `char('\n')`.  The value
(the consumed slice in the source) is irrelevant to every caller. -/
def parse_new_line (buf : List Char) : Option (List Char × Unit) :=
  match chr '\r' buf with
  | none => none
  | some (r1, _) =>
    match chr '\n' r1 with
    | none => none
    | some (r2, _) => some (r2, ())

/-- is_colon (header.rs). -/
def is_colon (c : Char) : Bool := c = ':'

/-- UTF-8 validation DFA over byte values (RFC 3629, as enforced by Rust's
std::str::from_utf8): the Nat arguments are the number of continuation bytes
still expected and the admissible range for the next byte (the range of the
first continuation byte excludes overlong encodings after 0xE0/0xF0 and
surrogates/out-of-range values after 0xED/0xF4). -/
def utf8_valid_aux : List Char → Nat → Nat → Nat → Bool
  | [], 0, _, _ => true
  | [], _ + 1, _, _ => false
  | c :: rest, 0, _, _ =>
    let b := c.toNat
    if b < 0x80 then utf8_valid_aux rest 0 0 0
    else if b < 0xC2 then false
    else if b < 0xE0 then utf8_valid_aux rest 1 0x80 0xBF
    else if b = 0xE0 then utf8_valid_aux rest 2 0xA0 0xBF
    else if b = 0xED then utf8_valid_aux rest 2 0x80 0x9F
    else if b < 0xF0 then utf8_valid_aux rest 2 0x80 0xBF
    else if b = 0xF0 then utf8_valid_aux rest 3 0x90 0xBF
    else if b < 0xF4 then utf8_valid_aux rest 3 0x80 0xBF
    else if b = 0xF4 then utf8_valid_aux rest 3 0x80 0x8F
    else false
  | c :: rest, n + 1, lo, hi =>
    if lo ≤ c.toNat ∧ c.toNat ≤ hi then utf8_valid_aux rest n 0x80 0xBF
    else false

/-- Validity of a byte sequence as UTF-8, the success condition of
std::str::from_utf8. -/
def utf8_valid (l : List Char) : Bool := utf8_valid_aux l 0 0 0

/-- parse_method (header.rs): alt(tag_no_case "GET", tag_no_case "POST"),
uppercase the matched slice, convert via From<&str>.  The
from_utf8(..).expect of the source cannot fire here: tag_no_case (ASCII
case-insensitive, like Rust's) only matches ASCII case variants of the tag,
which are always valid UTF-8. -/
def parse_method (buf : List Char) : Option (List Char × Method) :=
  match tag_no_case ("GET".data) buf with
  | some (res, s) =>
    (Method.from_str (String.mk (s.map Char.toUpper))).map (fun m => (res, m))
  | none =>
    match tag_no_case ("POST".data) buf with
    | some (res, s) =>
      (Method.from_str (String.mk (s.map Char.toUpper))).map (fun m => (res, m))
    | none => none

/-- parse_version (header.rs): alt with the single tag_no_case "HTTP/1.1",
uppercase, convert via From<&str>.  As with parse_method, the matched slice
is an ASCII case variant of the tag, so the source's from_utf8 expect cannot
fire. -/
def parse_version (buf : List Char) : Option (List Char × Version) :=
  match tag_no_case ("HTTP/1.1".data) buf with
  | some (res, s) =>
    (Version.from_str (String.mk (s.map Char.toUpper))).map (fun v => (res, v))
  | none => none

/-- parse_url (header.rs): take_until " ", then from_utf8 with
expect("url not valid") — a panic on a non-UTF-8 target, modelled as `none`
(the panic and a parse error both abort the request; nothing downstream of
the request line distinguishes them) — then Url::from.  A valid non-ASCII
target is kept as its raw bytes-as-chars rather than decoded; the claims
depend only on the error path and on ASCII content. -/
def parse_url (buf : List Char) : Option (List Char × Url) :=
  match take_until_space buf with
  | none => none
  | some (res, url) =>
    if utf8_valid url then some (res, Url.from_str (String.mk url)) else none

/-- parse_request_line (header.rs): method, space, url, space, version. -/
def parse_request_line (buf : List Char) :
    Option (List Char × (Method × Url × Version)) :=
  match parse_method buf with
  | none => none
  | some (r1, method) =>
    match chr ' ' r1 with
    | none => none
    | some (r2, _) =>
      match parse_url r2 with
      | none => none
      | some (r3, url) =>
        match chr ' ' r3 with
        | none => none
        | some (r4, _) =>
          match parse_version r4 with
          | none => none
          | some (res, version) => some (res, (method, url, version))

/-- Outcome of the fold_many0 inner parser (header line plus CRLF): a parsed
line, a nom Err::Error — on which fold_many0 stops and succeeds with what it
has — or a Rust panic from from_utf8(..).expect (header.rs), which aborts
the whole parse rather than terminating the fold. -/
inductive HeaderLineResult where
  | line (res : List Char) (kv : String × String)
  | err
  | fatal
deriving DecidableEq, Repr

/-- parse_header_line (header.rs): key up to the first ':', then ": ", then
the value up to the first '\r'; the to_string closure then panics
(`HeaderLineResult.fatal`) when the key or value bytes are not valid UTF-8.
Valid non-ASCII bytes are kept as raw bytes-as-chars rather than decoded;
the claims depend only on the panic path and on ASCII content. -/
def parse_header_line (buf : List Char) : HeaderLineResult :=
  let q1 := take_till is_colon buf
  match chr ':' q1.1 with
  | none => HeaderLineResult.err
  | some (r2, _) =>
    match chr ' ' r2 with
    | none => HeaderLineResult.err
    | some (r3, _) =>
      let q2 := take_till (fun c => c = '\r') r3
      if utf8_valid q1.2 && utf8_valid q2.2 then
        HeaderLineResult.line q2.1 (String.mk q1.2, String.mk q2.2)
      else HeaderLineResult.fatal

/-- terminated(parse_header_line, parse_new_line) (header.rs): a panic in
parse_header_line propagates; a missing CRLF is a nom error. -/
def header_line_nl (buf : List Char) : HeaderLineResult :=
  match parse_header_line buf with
  | HeaderLineResult.line r kv =>
    match parse_new_line r with
    | none => HeaderLineResult.err
    | some (res, _) => HeaderLineResult.line res kv
  | e => e

/-- fold_many0 loop of parse_header_lines (header.rs), with explicit fuel so
that the definition is structurally recursive and kernel-evaluable.  nom's
fold_many0 accumulates while the inner parser succeeds and stops (returning
the map built so far) on Err::Error; a panic inside the inner parser aborts
everything (`none`).  The `none` on a non-consuming success is nom's
infinite-loop guard — unreachable, since a header line plus CRLF always
consumes — and fuel exhaustion is likewise unreachable for the initial fuel
`buf.length + 1`. -/
def fold_header_lines : Nat → List Char → HeaderMap → Option (List Char × HeaderMap)
  | 0, buf, acc => some (buf, acc)
  | Nat.succ fuel, buf, acc =>
    match header_line_nl buf with
    | HeaderLineResult.err => some (buf, acc)
    | HeaderLineResult.fatal => none
    | HeaderLineResult.line res kv =>
      if res.length < buf.length then
        fold_header_lines fuel res (hm_insert acc kv.1 kv.2)
      else none

/-- parse_header_lines (header.rs): fold_many0 of header lines into the map;
`none` is the from_utf8 panic (or the unreachable non-consuming guard). -/
def parse_header_lines (buf : List Char) : Option (List Char × HeaderMap) :=
  fold_header_lines (buf.length + 1) buf []

/-- terminated(parse_request_line, parse_new_line) inside parse_header. -/
def request_line_nl (buf : List Char) :
    Option (List Char × (Method × Url × Version)) :=
  match parse_request_line buf with
  | none => none
  | some (r, x) =>
    match parse_new_line r with
    | none => none
    | some (res, _) => some (res, x)

/-- parse_header (header.rs): request line + CRLF, then the header lines.
The `accept_encoding` field is the spec-modelled negotiation (see
`negotiate_encoding`); header.rs itself builds the Header from the four
parsed components. -/
def parse_header (buf : List Char) : Option (List Char × Header) :=
  match request_line_nl buf with
  | none => none
  | some (r, (method, url, version)) =>
    match parse_header_lines r with
    | none => none
    | some (res, headers) =>
      some (res, { method := method, url := url, version := version,
                   headers := headers,
                   accept_encoding := negotiate_encoding headers })

/-- parsing::parse (header.rs): parse the header block; when the remainder
starts with the terminating CRLF, strip it, take every remaining byte as the
body (an empty remainder gives `some []`), and consume the input; otherwise
the body is `none` and the remainder is returned unconsumed. -/
def parsing.parse (buf : List Char) : Option (List Char × Request) :=
  match parse_header buf with
  | none => none
  | some (res, header) =>
    if res.take 2 = ['\r', '\n'] then
      some ([], { header := header, body := some (res.drop 2) })
    else
      some (res, { header := header, body := none })

/-- pub fn parse (header.rs): the anyhow wrapper swaps the pair and formats
the error; modelled with the error collapsed to `none`. -/
def request_parse (buf : List Char) : Option (Request × List Char) :=
  (parsing.parse buf).map (fun p => (p.2, p.1))

/-! Response serialization (response.rs). -/

/-- ContentType (response.rs); the derived order lists TextPlain before
OctentStream (the source's spelling). -/
inductive ContentType where
  | TextPlain
  | OctentStream
deriving DecidableEq, Repr

/-- ContentType::text (response.rs). -/
def ContentType.text : ContentType → String
  | ContentType.TextPlain => "text/plain"
  | ContentType.OctentStream => "application/octet-stream"

/-- Headers (response.rs): the closed set of response header variants, with
the derived Ord given by declaration order and by the payload within a
variant. -/
inductive Headers where
  | ContentType (ct : ContentType)
  | ContentLength (size : Nat)
  | AcceptEncoding (enc : Encoding)
  | ContentEncoding (enc : Encoding)
deriving DecidableEq, Repr

/-- Headers::text (response.rs): header name and rendered value. -/
def Headers.text : Headers → String × String
  | Headers.ContentType ct => ("Content-Type", ct.text)
  | Headers.ContentLength size => ("Content-Length", toString size)
  | Headers.AcceptEncoding enc => ("Accept-Encoding", enc.text)
  | Headers.ContentEncoding enc => ("Content-Encoding", enc.text)

/-- Rank of a variant in the derived Ord on Headers (declaration order). -/
def Headers.variant_rank : Headers → Nat
  | Headers.ContentType _ => 0
  | Headers.ContentLength _ => 1
  | Headers.AcceptEncoding _ => 2
  | Headers.ContentEncoding _ => 3

/-- Rank of the payload inside a variant for the derived Ord (TextPlain <
OctentStream; ContentLength by size; Gzip is the only Encoding). -/
def Headers.payload_rank : Headers → Nat
  | Headers.ContentType ContentType.TextPlain => 0
  | Headers.ContentType ContentType.OctentStream => 1
  | Headers.ContentLength size => size
  | Headers.AcceptEncoding Encoding.Gzip => 0
  | Headers.ContentEncoding Encoding.Gzip => 0

/-- Derived Ord on Headers (response.rs): variant order first, payload next. -/
def Headers.lt (a b : Headers) : Bool :=
  a.variant_rank < b.variant_rank ∨
    (a.variant_rank = b.variant_rank ∧ a.payload_rank < b.payload_rank)

/-- BTreeSet<Headers> modelled as a list kept sorted and duplicate-free by
`hs_insert`. -/
abbrev HeaderSet := List Headers

/-- BTreeSet::insert: keep the list sorted; an element already present is
left in place. -/
def hs_insert (s : HeaderSet) (h : Headers) : HeaderSet :=
  match s with
  | [] => [h]
  | a :: t =>
    if Headers.lt h a then h :: a :: t
    else if h = a then a :: t
    else a :: hs_insert t h

/-- Status (response.rs). -/
inductive Status where
  | Ok
  | Created
  | Forbidden
  | NotFound
  | InternalServerError
deriving DecidableEq, Repr

/-- Status::code (response.rs). -/
def Status.code : Status → String
  | Status.Ok => "200"
  | Status.Created => "201"
  | Status.Forbidden => "403"
  | Status.NotFound => "404"
  | Status.InternalServerError => "500"

/-- Status::reason (response.rs). -/
def Status.reason : Status → String
  | Status.Ok => "OK"
  | Status.Created => "Created"
  | Status.Forbidden => "Forbidden"
  | Status.NotFound => "Not Found"
  | Status.InternalServerError => "Internal Server Error"

/-- Response (response.rs). -/
structure Response where
  version : Version
  status : Status
  headers : HeaderSet
  accept_encoding : Option Encoding
  body : Option (List Char)
deriving DecidableEq, Repr

/-- END_LINE (response.rs): CRLF. -/
def END_LINE : List Char := ['\r', '\n']

/-- Modelled from the spec: the gzip encoder is the external libflate crate
(not part of this repository); the spec fixes only that it is a standard
DEFLATE-family gzip encoder, assumed infallible and a pure function of the
input bytes.  It is modelled as a deterministic byte transformation — a gzip
member frame around the raw bytes — since the claims depend only on its
determinism and on the length of whatever it outputs. -/
def gzip_compress (body : List Char) : List Char :=
  Char.ofNat 0x1f :: Char.ofNat 0x8b :: (body ++ [Char.ofNat 0x03])

/-- Response::insert (response.rs): emit one `key: value` CRLF line. -/
def header_emit (key value : String) : List Char :=
  key.data ++ (": ").data ++ value.data ++ END_LINE

/-- Response::handle_response_line (response.rs): the status line. -/
def Response.handle_response_line (r : Response) : List Char :=
  r.version.text.data ++ [' '] ++ r.status.code.data ++ [' ']
    ++ r.status.reason.data ++ END_LINE

/-- Loop body of Response::handle_headers (response.rs): iterate the header
set in order, skipping every ContentLength variant. -/
def emit_headers : HeaderSet → List Char
  | [] => []
  | h :: t =>
    (match h with
     | Headers.ContentLength _ => []
     | h => header_emit h.text.1 h.text.2) ++ emit_headers t

/-- Closure handle_writing inside Response::handle_body (response.rs): emit
Content-Length computed from the bytes about to be written, the blank line,
then those bytes. -/
def handle_writing (body : List Char) : List Char :=
  header_emit (Headers.ContentLength body.length).text.1
      (Headers.ContentLength body.length).text.2
    ++ END_LINE ++ body

/-- Response::handle_body (response.rs): no body emits a lone CRLF; a body
with no negotiated encoding is written raw; with Gzip the Content-Encoding
header is emitted and the compressed bytes are framed instead. -/
def Response.handle_body (r : Response) : List Char :=
  match r.body with
  | none => END_LINE
  | some body =>
    match r.accept_encoding with
    | none => handle_writing body
    | some Encoding.Gzip =>
      header_emit (Headers.ContentEncoding Encoding.Gzip).text.1
          (Headers.ContentEncoding Encoding.Gzip).text.2
        ++ handle_writing (gzip_compress body)

/-- Response::write (response.rs): append the status line, the header lines
and the body framing to the caller's buffer. -/
def Response.write (r : Response) (buf : List Char) : List Char :=
  buf ++ r.handle_response_line ++ emit_headers r.headers ++ r.handle_body

/-! Router (processing.rs), with the file system as a key-to-bytes store. -/

/-- File system modelled as an updatable key-to-bytes store: newest entry
first, so a write shadows previous contents of the same path. -/
abbrev FS := List (String × List Char)

/-- tokio::fs::read, modelled on the store. -/
def fs_read (fs : FS) (path : String) : Option (List Char) :=
  match fs with
  | [] => none
  | (p, c) :: t => if p = path then some c else fs_read t path

/-- tokio::fs::write, modelled on the store (infallible in the model). -/
def fs_write (fs : FS) (path : String) (contents : List Char) : FS :=
  (path, contents) :: fs

/-- tokio::fs::try_exists, modelled on the store (infallible in the model). -/
def fs_try_exists (fs : FS) (path : String) : Bool :=
  (fs_read fs path).isSome

/-- PathBuf::from(directory) followed by push(name) (processing.rs): the
pushed names are URL sections, which never contain '/', so push appends one
separator and the name. -/
def path_join (directory name : String) : String :=
  directory ++ "/" ++ name

/-- Router (processing.rs). -/
structure Router where
  directory : Option String

/-- Router::created (processing.rs). -/
def Router.created (request : Request) : Response :=
  { version := Version.Http11, status := Status.Created, headers := [],
    accept_encoding := request.header.accept_encoding, body := none }

/-- Router::ok (processing.rs). -/
def Router.ok (request : Request) : Response :=
  { version := Version.Http11, status := Status.Ok, headers := [],
    accept_encoding := request.header.accept_encoding, body := none }

/-- Router::not_found (processing.rs). -/
def Router.not_found (request : Request) : Response :=
  { version := Version.Http11, status := Status.NotFound, headers := [],
    accept_encoding := request.header.accept_encoding, body := none }

/-- Router::internal_server_error (processing.rs). -/
def Router.internal_server_error (request : Request) : Response :=
  { version := Version.Http11, status := Status.InternalServerError,
    headers := [], accept_encoding := request.header.accept_encoding,
    body := none }

/-- Router::root (processing.rs). -/
def Router.root (request : Request) : Response :=
  Router.ok request

/-- Router::echo (processing.rs): 404 with exactly one section, else 200
text/plain echoing the second section.  Indexing sections[1] with an empty
sections list would panic (`none`); that branch is unreachable from
Router::process, which already matched sections[0]. -/
def Router.echo (request : Request) : Option Response :=
  let sections := request.header.url.sections
  if sections.length = 1 then some (Router.not_found request)
  else
    match sections.get? 1 with
    | none => none
    | some second =>
      let resp := Router.ok request
      some { resp with
             headers := hs_insert resp.headers (Headers.ContentType ContentType.TextPlain),
             body := some second.data }

/-- Router::user_agent (processing.rs): the source indexes the request
header map with the literal key "user-agent"
(`request.header.headers["user-agent"]`); a missing key panics (`none`). -/
def Router.user_agent (request : Request) : Option Response :=
  match hm_get request.header.headers "user-agent" with
  | none => none
  | some ua =>
    let resp := Router.ok request
    some { resp with
           headers := hs_insert resp.headers (Headers.ContentType ContentType.TextPlain),
           body := some ua.data }

/-- Router::files_get (processing.rs): 404 with one section; 500 without a
configured directory; then existence check (absent → 404) and read
(success → 200 application/octet-stream with the file bytes; the store
model's read of an existing path cannot fail, so the read-failure 500 branch
is unreachable). -/
def Router.files_get (r : Router) (request : Request) (fs : FS) : Option Response :=
  let sections := request.header.url.sections
  if sections.length = 1 then some (Router.not_found request)
  else
    match r.directory with
    | none => some (Router.internal_server_error request)
    | some directory =>
      match sections.get? 1 with
      | none => none
      | some name =>
        let file := path_join directory name
        if fs_try_exists fs file then
          match fs_read fs file with
          | none => some (Router.internal_server_error request)
          | some content =>
            let resp := Router.ok request
            some { resp with
                   headers := hs_insert resp.headers
                     (Headers.ContentType ContentType.OctentStream),
                   body := some content }
        else some (Router.not_found request)

/-- Router::files_post (processing.rs): 404 with one section; 500 without a
configured directory; 500 on an absent request body; otherwise write the
body to directory/name (infallible in the store model) and answer 201. -/
def Router.files_post (r : Router) (request : Request) (fs : FS) :
    Option (Response × FS) :=
  let sections := request.header.url.sections
  if sections.length = 1 then some (Router.not_found request, fs)
  else
    match r.directory with
    | none => some (Router.internal_server_error request, fs)
    | some directory =>
      match sections.get? 1 with
      | none => none
      | some name =>
        match request.body with
        | none => some (Router.internal_server_error request, fs)
        | some content =>
          some (Router.created request, fs_write fs (path_join directory name) content)

/-- Router::files (processing.rs): dispatch on the request method. -/
def Router.files (r : Router) (request : Request) (fs : FS) :
    Option (Response × FS) :=
  match request.header.method with
  | Method.Get => (Router.files_get r request fs).map (fun resp => (resp, fs))
  | Method.Post => Router.files_post r request fs

/-- Router::process (processing.rs): dispatch on `url.sections[0]`.  An
empty sections list makes the index panic (`none`). -/
def Router.process (r : Router) (request : Request) (fs : FS) :
    Option (Response × FS) :=
  match request.header.url.sections.head? with
  | none => none
  | some s =>
    if s = "/" then some (Router.root request, fs)
    else if s = "echo" then (Router.echo request).map (fun resp => (resp, fs))
    else if s = "user-agent" then
      (Router.user_agent request).map (fun resp => (resp, fs))
    else if s = "files" then Router.files r request fs
    else some (Router.not_found request, fs)

/-! Connection driver (main.rs). -/

/-- Outcome of one request/response cycle of handle_connection (main.rs):
either the loop runs another cycle on the same connection or the connection
is closed. -/
inductive ConnectionStep where
  | loopAgain
  | close
deriving DecidableEq, Repr

/-- Keep-alive decision at the end of the loop body of handle_connection
(main.rs): a present Connection header equal to "keep-alive" hits
`continue`; a present header with any other value falls through both `if`s
to the end of the loop body, which also loops; only an absent header hits
`break`. -/
def after_response (request : Request) : ConnectionStep :=
  match hm_get request.header.headers "Connection" with
  | some v =>
    if v = "keep-alive" then ConnectionStep.loopAgain
    else ConnectionStep.loopAgain
  | none => ConnectionStep.close

/-! General lemmas about the embedded definitions. -/

theorem string_mk_data (s : String) : String.mk s.data = s := rfl

theorem take_till_of_all_false (p : Char → Bool) (l : List Char)
    (h : ∀ a ∈ l, p a = false) : take_till p l = ([], l) := by
  induction l with
  | nil => rfl
  | cons c rest ih =>
    have hc : p c = false := h c (by simp)
    simp [take_till, hc, ih (fun a ha => h a (by simp [ha]))]

theorem take_till_append (p : Char → Bool) (l1 : List Char) (c : Char)
    (l2 : List Char) (h1 : ∀ a ∈ l1, p a = false) (hc : p c = true) :
    take_till p (l1 ++ c :: l2) = (c :: l2, l1) := by
  induction l1 with
  | nil => simp [take_till, hc]
  | cons a t ih =>
    have ha : p a = false := h1 a (by simp)
    simp [take_till, ha, ih (fun x hx => h1 x (by simp [hx]))]

theorem chr_cons (c : Char) (l : List Char) : chr c (c :: l) = some (l, c) := by
  simp [chr]

theorem take_till_rem_length (p : Char → Bool) (l : List Char) :
    (take_till p l).1.length ≤ l.length := by
  induction l with
  | nil => simp [take_till]
  | cons c rest ih =>
    by_cases hc : p c
    · simp [take_till, hc]
    · simp only [take_till, hc]
      simpa using Nat.le_succ_of_le ih

theorem chr_some_length {c : Char} {buf res : List Char} {x : Char}
    (h : chr c buf = some (res, x)) : res.length < buf.length := by
  cases buf with
  | nil => simp [chr] at h
  | cons b rest =>
    by_cases hb : b = c
    · simp [chr, hb] at h
      simp [h.1]
    · simp [chr, hb] at h

theorem parse_new_line_some_length {buf res : List Char} {u : Unit}
    (h : parse_new_line buf = some (res, u)) : res.length < buf.length := by
  unfold parse_new_line at h
  cases h1 : chr '\r' buf with
  | none => simp [h1] at h
  | some p1 =>
    obtain ⟨r1, c1⟩ := p1
    simp only [h1] at h
    cases h2 : chr '\n' r1 with
    | none => simp [h2] at h
    | some p2 =>
      obtain ⟨r2, c2⟩ := p2
      simp only [h2] at h
      have l1 := chr_some_length h1
      have l2 := chr_some_length h2
      injection h with hp
      injection hp with hres hu
      subst hres
      omega

theorem utf8_valid_of_ascii (l : List Char) (h : ∀ a ∈ l, a.toNat < 128) :
    utf8_valid l = true := by
  unfold utf8_valid
  induction l with
  | nil => rfl
  | cons c rest ih =>
    have hc : c.toNat < 128 := h c (by simp)
    simp only [utf8_valid_aux]
    simp only [if_pos hc]
    exact ih (fun a ha => h a (by simp [ha]))

theorem take_till_rem_subset (p : Char → Bool) (l : List Char) :
    ∀ a ∈ (take_till p l).1, a ∈ l := by
  induction l with
  | nil => simp [take_till]
  | cons c rest ih =>
    by_cases hc : p c
    · simp [take_till, hc]
    · intro a ha
      simp only [take_till, hc] at ha
      simp only [Bool.false_eq_true, if_false] at ha
      exact List.mem_cons_of_mem c (ih a ha)

theorem take_till_taken_subset (p : Char → Bool) (l : List Char) :
    ∀ a ∈ (take_till p l).2, a ∈ l := by
  induction l with
  | nil => simp [take_till]
  | cons c rest ih =>
    by_cases hc : p c
    · simp [take_till, hc]
    · intro a ha
      simp only [take_till, hc] at ha
      simp only [Bool.false_eq_true, if_false, List.mem_cons] at ha
      rcases ha with ha | ha
      · simp [ha]
      · exact List.mem_cons_of_mem c (ih a ha)

theorem chr_some_subset {c : Char} {buf res : List Char} {x : Char}
    (h : chr c buf = some (res, x)) : ∀ a ∈ res, a ∈ buf := by
  cases buf with
  | nil => simp [chr] at h
  | cons b rest =>
    by_cases hb : b = c
    · simp [chr, hb] at h
      intro a ha
      rw [← h.1] at ha
      exact List.mem_cons_of_mem b ha
    · simp [chr, hb] at h

theorem parse_new_line_some_subset {buf res : List Char} {u : Unit}
    (h : parse_new_line buf = some (res, u)) : ∀ a ∈ res, a ∈ buf := by
  unfold parse_new_line at h
  cases h1 : chr '\r' buf with
  | none => simp [h1] at h
  | some p1 =>
    obtain ⟨r1, c1⟩ := p1
    simp only [h1] at h
    cases h2 : chr '\n' r1 with
    | none => simp [h2] at h
    | some p2 =>
      obtain ⟨r2, c2⟩ := p2
      simp only [h2] at h
      injection h with hp
      injection hp with hres hu
      subst hres
      intro a ha
      exact chr_some_subset h1 a (chr_some_subset h2 a ha)

theorem parse_header_line_line_length {buf res : List Char}
    {kv : String × String}
    (h : parse_header_line buf = HeaderLineResult.line res kv) :
    res.length < buf.length := by
  unfold parse_header_line at h
  simp only at h
  have t1 := take_till_rem_length is_colon buf
  cases h1 : chr ':' (take_till is_colon buf).1 with
  | none => simp [h1] at h
  | some p1 =>
    obtain ⟨r2, c1⟩ := p1
    simp only [h1] at h
    cases h2 : chr ' ' r2 with
    | none => simp [h2] at h
    | some p2 =>
      obtain ⟨r3, c2⟩ := p2
      simp only [h2] at h
      have l1 := chr_some_length h1
      have l2 := chr_some_length h2
      have t2 := take_till_rem_length (fun c => c = '\r') r3
      split at h
      · injection h with hres hkv
        subst hres
        omega
      · simp at h

theorem parse_header_line_line_subset {buf res : List Char}
    {kv : String × String}
    (h : parse_header_line buf = HeaderLineResult.line res kv) :
    ∀ a ∈ res, a ∈ buf := by
  unfold parse_header_line at h
  simp only at h
  cases h1 : chr ':' (take_till is_colon buf).1 with
  | none => simp [h1] at h
  | some p1 =>
    obtain ⟨r2, c1⟩ := p1
    simp only [h1] at h
    cases h2 : chr ' ' r2 with
    | none => simp [h2] at h
    | some p2 =>
      obtain ⟨r3, c2⟩ := p2
      simp only [h2] at h
      split at h
      · injection h with hres hkv
        subst hres
        intro a ha
        exact take_till_rem_subset is_colon buf a
          (chr_some_subset h1 a
            (chr_some_subset h2 a
              (take_till_rem_subset (fun c => c = '\r') r3 a ha)))
      · simp at h

theorem parse_header_line_ascii_ne_fatal {buf : List Char}
    (hascii : ∀ a ∈ buf, a.toNat < 128) :
    parse_header_line buf ≠ HeaderLineResult.fatal := by
  intro h
  unfold parse_header_line at h
  simp only at h
  cases h1 : chr ':' (take_till is_colon buf).1 with
  | none => simp [h1] at h
  | some p1 =>
    obtain ⟨r2, c1⟩ := p1
    simp only [h1] at h
    cases h2 : chr ' ' r2 with
    | none => simp [h2] at h
    | some p2 =>
      obtain ⟨r3, c2⟩ := p2
      simp only [h2] at h
      have hs3 : ∀ a ∈ r3, a ∈ buf := fun a ha =>
        take_till_rem_subset is_colon buf a
          (chr_some_subset h1 a (chr_some_subset h2 a ha))
      have hu1 : utf8_valid (take_till is_colon buf).2 = true :=
        utf8_valid_of_ascii _
          (fun a ha => hascii a (take_till_taken_subset is_colon buf a ha))
      have hu2 : utf8_valid (take_till (fun c => c = '\r') r3).2 = true :=
        utf8_valid_of_ascii _
          (fun a ha =>
            hascii a (hs3 a (take_till_taken_subset (fun c => c = '\r') r3 a ha)))
      rw [hu1, hu2] at h
      simp at h

theorem header_line_nl_line_length {buf res : List Char}
    {kv : String × String}
    (h : header_line_nl buf = HeaderLineResult.line res kv) :
    res.length < buf.length := by
  unfold header_line_nl at h
  cases h1 : parse_header_line buf with
  | err => simp [h1] at h
  | fatal => simp [h1] at h
  | line r1 kv1 =>
    simp only [h1] at h
    cases h2 : parse_new_line r1 with
    | none => simp [h2] at h
    | some p2 =>
      obtain ⟨r2, u2⟩ := p2
      simp only [h2] at h
      have l1 := parse_header_line_line_length h1
      have l2 := parse_new_line_some_length h2
      injection h with hres hkv
      subst hres
      omega

theorem header_line_nl_line_subset {buf res : List Char}
    {kv : String × String}
    (h : header_line_nl buf = HeaderLineResult.line res kv) :
    ∀ a ∈ res, a ∈ buf := by
  unfold header_line_nl at h
  cases h1 : parse_header_line buf with
  | err => simp [h1] at h
  | fatal => simp [h1] at h
  | line r1 kv1 =>
    simp only [h1] at h
    cases h2 : parse_new_line r1 with
    | none => simp [h2] at h
    | some p2 =>
      obtain ⟨r2, u2⟩ := p2
      simp only [h2] at h
      injection h with hres hkv
      subst hres
      intro a ha
      exact parse_header_line_line_subset h1 a (parse_new_line_some_subset h2 a ha)

theorem header_line_nl_ascii_ne_fatal {buf : List Char}
    (hascii : ∀ a ∈ buf, a.toNat < 128) :
    header_line_nl buf ≠ HeaderLineResult.fatal := by
  intro h
  unfold header_line_nl at h
  cases h1 : parse_header_line buf with
  | err => simp [h1] at h
  | fatal => exact parse_header_line_ascii_ne_fatal hascii h1
  | line r1 kv1 =>
    simp only [h1] at h
    cases h2 : parse_new_line r1 with
    | none => simp [h2] at h
    | some p2 =>
      obtain ⟨r2, u2⟩ := p2
      simp only [h2] at h
      simp at h

theorem fold_header_lines_isSome_of_ascii :
    ∀ (fuel : Nat) (buf : List Char) (acc : HeaderMap), buf.length < fuel →
      (∀ a ∈ buf, a.toNat < 128) → (fold_header_lines fuel buf acc).isSome := by
  intro fuel
  induction fuel with
  | zero => intro buf acc h _; omega
  | succ n ih =>
    intro buf acc h hascii
    simp only [fold_header_lines]
    cases hh : header_line_nl buf with
    | err => simp
    | fatal => exact absurd hh (header_line_nl_ascii_ne_fatal hascii)
    | line res kv =>
      have hlen := header_line_nl_line_length hh
      simp only [hlen, if_true]
      exact ih res _ (by omega)
        (fun a ha => hascii a (header_line_nl_line_subset hh a ha))

theorem parse_header_lines_isSome_of_ascii (buf : List Char)
    (hascii : ∀ a ∈ buf, a.toNat < 128) : (parse_header_lines buf).isSome :=
  fold_header_lines_isSome_of_ascii _ _ _ (by omega) hascii

/-- Rendering of a header block used to state parser properties: each pair
becomes `key: value` followed by CRLF. -/
def render_lines : List (String × String) → List Char
  | [] => []
  | p :: t => p.1.data ++ ':' :: ' ' :: (p.2.data ++ '\r' :: '\n' :: render_lines t)

theorem header_line_nl_render (k v : String) (rest : List Char)
    (hk : ∀ a ∈ k.data, a ≠ ':') (hv : ∀ a ∈ v.data, a ≠ '\r')
    (huk : utf8_valid k.data = true) (huv : utf8_valid v.data = true) :
    header_line_nl (k.data ++ ':' :: ' ' :: (v.data ++ '\r' :: '\n' :: rest)) =
      HeaderLineResult.line rest (k, v) := by
  have h1 : take_till is_colon (k.data ++ ':' :: ' ' :: (v.data ++ '\r' :: '\n' :: rest)) =
      (':' :: ' ' :: (v.data ++ '\r' :: '\n' :: rest), k.data) :=
    take_till_append _ _ _ _
      (fun a ha => by simp [is_colon, hk a ha]) (by simp [is_colon])
  have h2 : take_till (fun c => c = '\r') (v.data ++ '\r' :: '\n' :: rest) =
      ('\r' :: '\n' :: rest, v.data) :=
    take_till_append _ _ _ _ (fun a ha => by simp [hv a ha]) (by simp)
  simp [header_line_nl, parse_header_line, h1, h2, huk, huv, chr,
    parse_new_line, string_mk_data]

theorem fold_header_lines_render (ls : List (String × String)) :
    ∀ (fuel : Nat) (acc : HeaderMap),
      (∀ p ∈ ls, (∀ a ∈ p.1.data, a ≠ ':') ∧ (∀ a ∈ p.2.data, a ≠ '\r') ∧
        utf8_valid p.1.data = true ∧ utf8_valid p.2.data = true) →
      (render_lines ls ++ END_LINE).length < fuel →
      fold_header_lines fuel (render_lines ls ++ END_LINE) acc =
        some (END_LINE, ls.foldl (fun m p => hm_insert m p.1 p.2) acc) := by
  induction ls with
  | nil =>
    intro fuel acc _ hf
    simp only [render_lines, List.nil_append] at hf ⊢
    cases fuel with
    | zero => omega
    | succ n =>
      have hnl : header_line_nl ['\r', '\n'] = HeaderLineResult.err := by decide
      simp [fold_header_lines, END_LINE, hnl]
  | cons p t ih =>
    intro fuel acc hg hf
    obtain ⟨k, v⟩ := p
    have hk := (hg (k, v) (by simp)).1
    have hv := (hg (k, v) (by simp)).2.1
    have huk := (hg (k, v) (by simp)).2.2.1
    have huv := (hg (k, v) (by simp)).2.2.2
    have hshape : render_lines ((k, v) :: t) ++ END_LINE =
        k.data ++ ':' :: ' ' :: (v.data ++ '\r' :: '\n' :: (render_lines t ++ END_LINE)) := by
      simp [render_lines, END_LINE]
    have hline := header_line_nl_render k v (render_lines t ++ END_LINE) hk hv huk huv
    rw [hshape] at hf ⊢
    cases fuel with
    | zero => omega
    | succ n =>
      have hlt : (render_lines t ++ END_LINE).length <
          (k.data ++ ':' :: ' ' :: (v.data ++ '\r' :: '\n' :: (render_lines t ++ END_LINE))).length := by
        simp
        omega
      simp only [fold_header_lines, hline, hlt, if_true]
      rw [ih n (hm_insert acc k v) (fun q hq => hg q (by simp [hq])) (by omega)]
      simp

theorem hm_get_hm_insert (m : HeaderMap) (k v k' : String) :
    hm_get (hm_insert m k v) k' = if k = k' then some v else hm_get m k' := by
  induction m with
  | nil => simp [hm_insert, hm_get]
  | cons e t ih =>
    obtain ⟨a, b⟩ := e
    by_cases hak : a = k
    · subst hak
      simp only [hm_insert, if_pos rfl]
      by_cases hk' : a = k' <;> simp [hm_get, hk']
    · simp only [hm_insert, if_neg hak]
      by_cases hk' : a = k'
      · subst hk'
        have : ¬ (k = a) := fun hh => hak hh.symm
        simp [hm_get, this]
      · simp [hm_get, hk', ih]

/-- Value of the last header line carrying a given key, used to state the
last-write-wins folding property. -/
def lookup_last : List (String × String) → String → Option String
  | [], _ => none
  | p :: t, k =>
    match lookup_last t k with
    | some v => some v
    | none => if p.1 = k then some p.2 else none

theorem hm_get_foldl (ls : List (String × String)) :
    ∀ (m : HeaderMap) (k : String),
      hm_get (ls.foldl (fun m p => hm_insert m p.1 p.2) m) k =
        match lookup_last ls k with
        | some v => some v
        | none => hm_get m k := by
  induction ls with
  | nil => intro m k; simp [lookup_last]
  | cons p t ih =>
    intro m k
    obtain ⟨a, b⟩ := p
    simp only [List.foldl_cons, lookup_last, ih, hm_get_hm_insert]
    cases hlt : lookup_last t k with
    | some v => simp
    | none =>
      by_cases hak : a = k <;> simp [hak]

theorem emit_headers_hs_insert_content_length (hs : HeaderSet) (n : Nat) :
    emit_headers (hs_insert hs (Headers.ContentLength n)) = emit_headers hs := by
  induction hs with
  | nil => simp [hs_insert, emit_headers]
  | cons a t ih =>
    simp only [hs_insert]
    split
    · simp [emit_headers]
    · split
      · rfl
      · simp [emit_headers, ih]

theorem char_L_not_mem_emit_headers (hs : HeaderSet) :
    'L' ∉ emit_headers hs := by
  induction hs with
  | nil => simp [emit_headers]
  | cons h t ih =>
    simp only [emit_headers, List.mem_append]
    rintro (hmem | hmem)
    · cases h with
      | ContentLength n => simp at hmem
      | ContentType ct => cases ct <;> exact absurd hmem (by decide)
      | AcceptEncoding e => cases e; exact absurd hmem (by decide)
      | ContentEncoding e => cases e; exact absurd hmem (by decide)
    · exact ih hmem

theorem char_L_not_mem_response_line (r : Response) :
    'L' ∉ r.handle_response_line := by
  obtain ⟨v, s, hs, ae, b⟩ := r
  cases v
  cases s <;>
    simp [Response.handle_response_line, Version.text, Status.code,
      Status.reason, END_LINE]

/-! Claim theorems. -/

/-- C1 (counterexample): the request "GET / HTTP/1.1\r\nConnection: close\r\n\r\n"
parses with a Connection header present and different from "keep-alive", yet
the connection driver loops for another cycle instead of closing — refuting
the claim that any value other than exactly "keep-alive" closes the
connection. -/
theorem claim_C1_counterexample :
    ((parsing.parse (("GET / HTTP/1.1\r\nConnection: close\r\n\r\n").data)).map
        (fun p => (hm_get p.2.header.headers "Connection", after_response p.2)) =
      some (some "close", ConnectionStep.loopAgain))
    ∧ ConnectionStep.loopAgain ≠ ConnectionStep.close := by
  constructor
  · decide
  · decide

/-- C1 (amended): after writing a response the connection driver closes the
connection exactly when the request's Connection header is absent; whenever
the header is present — whether its value is "keep-alive" or anything else —
the driver loops for another request/response cycle, because a non-keep-alive
value falls through both branches to the end of the loop body. -/
theorem claim_C1 (request : Request) :
    after_response request = ConnectionStep.close ↔
      hm_get request.header.headers "Connection" = none := by
  unfold after_response
  cases h : hm_get request.header.headers "Connection" with
  | none => simp
  | some v => by_cases hv : v = "keep-alive" <;> simp [hv]

/-- Request parsed from "GET /user-agent HTTP/1.1\r\nUser-Agent: foobar/1.2.3\r\n\r\n". -/
def req_ua_parsed : Request :=
  { header := { method := Method.Get,
                url := { sections := ["user-agent"], query := none },
                version := Version.Http11,
                headers := [("User-Agent", "foobar/1.2.3")],
                accept_encoding := none },
    body := some [] }

/-- C2 (code bug): a standard user-agent request stores the header under the
key "User-Agent" exactly as received, but Router::user_agent indexes the map
with the literal lowercase key "user-agent", so the lookup panics instead of
producing the claimed 200 response with the User-Agent value. -/
theorem claim_C2_bug :
    parsing.parse
        (("GET /user-agent HTTP/1.1\r\nUser-Agent: foobar/1.2.3\r\n\r\n").data) =
      some ([], req_ua_parsed)
    ∧ hm_get req_ua_parsed.header.headers "User-Agent" = some "foobar/1.2.3"
    ∧ Router.user_agent req_ua_parsed = none
    ∧ Router.process { directory := none } req_ua_parsed [] = none := by
  refine ⟨by decide, by decide, by decide, by decide⟩

/-- Request parsed from "GET / HTTP/1.1\r\n\r\n": note the body is the empty
byte sequence, not absent. -/
def req_root_parsed : Request :=
  { header := { method := Method.Get,
                url := { sections := ["/"], query := none },
                version := Version.Http11,
                headers := [],
                accept_encoding := none },
    body := some [] }

/-- C3 (counterexample): parsing "GET / HTTP/1.1\r\n\r\n" yields body
`some []` (an empty body), not `none` as the claim states. -/
theorem claim_C3_counterexample :
    ((parsing.parse (("GET / HTTP/1.1\r\n\r\n").data)).map (fun p => p.2.body) =
      some (some []))
    ∧ (parsing.parse (("GET / HTTP/1.1\r\n\r\n").data)).map (fun p => p.2.body) ≠
        some none := by
  constructor
  · decide
  · decide

/-- C3 (amended): parsing "GET / HTTP/1.1\r\n\r\n" succeeds with method GET,
url sections ["/"], version HTTP/1.1 and an empty header map, but the body is
`some []` — the empty byte sequence — not absent; in general, whenever
exactly the terminating CRLF remains after the header block, the parser
strips it and returns an empty body (`some []`), never `none`. -/
theorem claim_C3 :
    parsing.parse (("GET / HTTP/1.1\r\n\r\n").data) = some ([], req_root_parsed)
    ∧ (∀ (buf res : List Char) (hdr : Header), parse_header buf = some (res, hdr) →
        res = END_LINE →
        parsing.parse buf = some ([], { header := hdr, body := some [] })) := by
  constructor
  · decide
  · intro buf res hdr h hres
    subst hres
    simp [parsing.parse, h, END_LINE]

/-- Header parsed from "GET / HTTP/1.1\r\nHost: x\r\n\r\n". -/
def hdr_host : Header :=
  { method := Method.Get,
    url := { sections := ["/"], query := none },
    version := Version.Http11,
    headers := [("Host", "x")],
    accept_encoding := none }

/-- C3 witness: the general empty-body rule of `claim_C3` applied to the
concrete input "GET / HTTP/1.1\r\nHost: x\r\n\r\n". -/
theorem claim_C3_witness :
    parsing.parse (("GET / HTTP/1.1\r\nHost: x\r\n\r\n").data) =
      some ([], { header := hdr_host, body := some [] }) :=
  claim_C3.2 _ END_LINE hdr_host (by decide) rfl

/-- C4 (counterexample): the input "GET / HTTP/1.1\r\nBadHeader\r\n\r\n",
whose header block contains a line without the ": " separator, does not make
parse fail — parse succeeds (returning a Request) and the malformed line is
simply absent from the header map. -/
theorem claim_C4_counterexample :
    (parsing.parse (("GET / HTTP/1.1\r\nBadHeader\r\n\r\n").data)).isSome = true
    ∧ (parsing.parse (("GET / HTTP/1.1\r\nBadHeader\r\n\r\n").data)).map
        (fun p => p.2.header.headers) = some [] := by
  constructor
  · decide
  · decide

/-- Request returned for "GET / HTTP/1.1\r\nBadHeader\r\n\r\n": the malformed
line is left (with everything after it) as unconsumed input and the request
is accepted with no headers and no body. -/
def req_bad_dropped : Request :=
  { header := { method := Method.Get,
                url := { sections := ["/"], query := none },
                version := Version.Http11,
                headers := [],
                accept_encoding := none },
    body := none }

/-- C4 (amended): a header line lacking the ": " separator is not a parse
error: header accumulation stops at the first unparsable line, which is left
(with everything following it) as unconsumed remainder and silently omitted
from the accepted request — once the request line and its CRLF are consumed,
parse succeeds on every header block of valid text (any ASCII block, in
particular).  The only header-block failure is the from_utf8 panic on
non-UTF-8 key or value bytes of a structurally well-formed line ("K\xFF: v"
below), the spec's fatal error on binary garbage.  And because the key parser
scans to the first colon anywhere in the remaining input, a separator-free
line followed by a well-formed header is merged into that header's key (here
"Bad\r\nGood"). -/
theorem claim_C4 :
    (∀ rest : List Char, (∀ a ∈ rest, a.toNat < 128) →
        (parsing.parse (("GET / HTTP/1.1\r\n").data ++ rest)).isSome)
    ∧ parsing.parse
        (("GET / HTTP/1.1\r\nK").data ++
          Char.ofNat 0xFF :: ((": v\r\n\r\n").data)) = none
    ∧ parsing.parse (("GET / HTTP/1.1\r\nBadHeader\r\n\r\n").data) =
        some ((("BadHeader\r\n\r\n").data), req_bad_dropped)
    ∧ (parsing.parse (("GET / HTTP/1.1\r\nBad\r\nGood: v\r\n\r\n").data)).map
        (fun p => p.2.header.headers) = some [("Bad\r\nGood", "v")] := by
  refine ⟨?_, by decide, by decide, by decide⟩
  intro rest hascii
  have h0 : request_line_nl (("GET / HTTP/1.1\r\n").data ++ rest) =
      some (rest, (Method.Get, { sections := ["/"], query := none }, Version.Http11)) := rfl
  have hl := parse_header_lines_isSome_of_ascii rest hascii
  obtain ⟨q, hq⟩ := Option.isSome_iff_exists.mp hl
  obtain ⟨res, hm⟩ := q
  have hh : parse_header (("GET / HTTP/1.1\r\n").data ++ rest) =
      some (res, { method := Method.Get, url := { sections := ["/"], query := none },
                   version := Version.Http11, headers := hm,
                   accept_encoding := negotiate_encoding hm }) := by
    unfold parse_header
    rw [h0]
    simp only [hq]
  simp only [parsing.parse, hh]
  split
  · simp
  · simp

/-- C4 witness: the ASCII-totality clause of `claim_C4` applied to a concrete
header block. -/
theorem claim_C4_witness :
    (parsing.parse
      (("GET / HTTP/1.1\r\n").data ++ (("X: y\r\n\r\n").data))).isSome :=
  claim_C4.1 (("X: y\r\n\r\n").data) (by decide)

/-- C9: response serialization is deterministic — write is a pure function of
the Response value and the output buffer, so equal inputs produce
byte-identical appended output (the gzip branch included, the modelled
encoder being itself a function of the body bytes). -/
theorem claim_C9 (r1 r2 : Response) (buf1 buf2 : List Char)
    (hr : r1 = r2) (hb : buf1 = buf2) :
    Response.write r1 buf1 = Response.write r2 buf2 := by
  subst hr
  subst hb
  rfl

/-- Gzip-encoded 200 response with body "hello", headers built by
BTreeSet::insert. -/
def resp_gzip_a : Response :=
  { version := Version.Http11, status := Status.Ok,
    headers := hs_insert [] (Headers.ContentType ContentType.TextPlain),
    accept_encoding := some Encoding.Gzip, body := some (("hello").data) }

/-- The same response value as `resp_gzip_a`, written with a literal header
list. -/
def resp_gzip_b : Response :=
  { version := Version.Http11, status := Status.Ok,
    headers := [Headers.ContentType ContentType.TextPlain],
    accept_encoding := some Encoding.Gzip, body := some (("hello").data) }

/-- C9 witness: two syntactically different but equal gzip-encoded responses
serialize to byte-identical output. -/
theorem claim_C9_witness :
    Response.write resp_gzip_a [] = Response.write resp_gzip_b [] :=
  claim_C9 resp_gzip_a resp_gzip_b [] [] (by decide) rfl

/-- C10: Router::process dereferences url.sections[0] unconditionally, so it
panics (modelled as `none`) on every request whose sections list is empty —
and the parser does accept such inputs: both "GET // HTTP/1.1\r\n\r\n" and
"GET ?x=1 HTTP/1.1\r\n\r\n" parse successfully to requests with an empty
sections list, since Url construction drops every empty segment. -/
theorem claim_C10 :
    (∀ (r : Router) (request : Request) (fs : FS),
        request.header.url.sections = [] → Router.process r request fs = none)
    ∧ ((parsing.parse (("GET // HTTP/1.1\r\n\r\n").data)).map
        (fun p => p.2.header.url.sections) = some [])
    ∧ ((parsing.parse (("GET ?x=1 HTTP/1.1\r\n\r\n").data)).map
        (fun p => p.2.header.url.sections) = some []) := by
  refine ⟨?_, by decide, by decide⟩
  intro r request fs h
  simp [Router.process, h]

/-- Request with an empty sections list (as produced by parsing
"GET // HTTP/1.1\r\n\r\n"). -/
def req_empty_sections : Request :=
  { header := { method := Method.Get,
                url := { sections := [], query := none },
                version := Version.Http11,
                headers := [],
                accept_encoding := none },
    body := some [] }

/-- C10 witness: routing a concrete request with an empty sections list
panics (modelled as `none`). -/
theorem claim_C10_witness :
    Router.process { directory := some "dir" } req_empty_sections [] = none :=
  claim_C10.1 { directory := some "dir" } req_empty_sections [] rfl

/-- C5: for every rendered well-formed header block (keys without ':',
values without '\r', keys and values valid text — valid UTF-8 bytes, lest
the program panic instead of parsing), the parsed header map is the left
fold of HashMap::insert over the lines in order, and looking up any key
yields the value of the last line carrying that key — so later duplicates
win and every distinct key present in the input appears in the map. -/
theorem claim_C5 (ls : List (String × String))
    (hgood : ∀ p ∈ ls, (∀ a ∈ p.1.data, a ≠ ':') ∧ (∀ a ∈ p.2.data, a ≠ '\r') ∧
      utf8_valid p.1.data = true ∧ utf8_valid p.2.data = true) :
    ((parsing.parse
        (("GET / HTTP/1.1\r\n").data ++ (render_lines ls ++ END_LINE))).map
          (fun p => p.2.header.headers) =
      some (ls.foldl (fun m p => hm_insert m p.1 p.2) []))
    ∧ (∀ k : String,
        hm_get (ls.foldl (fun m p => hm_insert m p.1 p.2) []) k = lookup_last ls k) := by
  constructor
  · have h0 : request_line_nl
        (("GET / HTTP/1.1\r\n").data ++ (render_lines ls ++ END_LINE)) =
        some (render_lines ls ++ END_LINE,
          (Method.Get, { sections := ["/"], query := none }, Version.Http11)) := rfl
    have hfold := fold_header_lines_render ls
      ((render_lines ls ++ END_LINE).length + 1) [] hgood (by omega)
    have hh : parse_header
        (("GET / HTTP/1.1\r\n").data ++ (render_lines ls ++ END_LINE)) =
        some (END_LINE,
          { method := Method.Get, url := { sections := ["/"], query := none },
            version := Version.Http11,
            headers := ls.foldl (fun m p => hm_insert m p.1 p.2) [],
            accept_encoding :=
              negotiate_encoding (ls.foldl (fun m p => hm_insert m p.1 p.2) []) }) := by
      unfold parse_header
      rw [h0]
      simp only [parse_header_lines, hfold]
    simp only [parsing.parse, hh]
    simp [END_LINE]
  · intro k
    rw [hm_get_foldl]
    cases lookup_last ls k with
    | none => simp [hm_get]
    | some v => simp

/-- C5 witness: a concrete header block with a duplicated key "A" — the map
folds to the last values and the lookup of "A" returns the later value. -/
theorem claim_C5_witness :
    ((parsing.parse
        (("GET / HTTP/1.1\r\n").data ++
          (render_lines [("A", "1"), ("A", "2"), ("B", "3")] ++ END_LINE))).map
          (fun p => p.2.header.headers) =
      some ([("A", "1"), ("A", "2"), ("B", "3")].foldl
        (fun m p => hm_insert m p.1 p.2) []))
    ∧ hm_get ([("A", "1"), ("A", "2"), ("B", "3")].foldl
        (fun m p => hm_insert m p.1 p.2) []) "A" =
      lookup_last [("A", "1"), ("A", "2"), ("B", "3")] "A" := by
  have h := claim_C5 [("A", "1"), ("A", "2"), ("B", "3")] (by decide)
  exact ⟨h.1, h.2 "A"⟩

/-- C6: in every serialized response the Content-Length header is computed
from the bytes actually written after it — the raw body without negotiation,
the compressed bytes when Gzip is negotiated — and framed immediately before
them; a ContentLength variant sitting in the header set is never emitted from
it; and a response without a body is serialized with no Content-Length at
all: its entire output beyond the caller's buffer contains no character 'L',
while every Content-Length header necessarily contains one. -/
theorem claim_C6 :
    (∀ (r : Response) (buf body : List Char), r.body = some body →
        r.accept_encoding = none →
        Response.write r buf =
          buf ++ r.handle_response_line ++ emit_headers r.headers ++
            (header_emit "Content-Length" (toString body.length) ++ END_LINE ++ body))
    ∧ (∀ (r : Response) (buf body : List Char), r.body = some body →
        r.accept_encoding = some Encoding.Gzip →
        Response.write r buf =
          buf ++ r.handle_response_line ++ emit_headers r.headers ++
            (header_emit "Content-Encoding" "gzip" ++
              (header_emit "Content-Length" (toString (gzip_compress body).length) ++
                END_LINE ++ gzip_compress body)))
    ∧ (∀ (hs : HeaderSet) (n : Nat),
        emit_headers (hs_insert hs (Headers.ContentLength n)) = emit_headers hs)
    ∧ (∀ (r : Response) (buf : List Char), r.body = none →
        Response.write r buf =
          buf ++ r.handle_response_line ++ emit_headers r.headers ++ END_LINE
        ∧ 'L' ∉ r.handle_response_line ++ emit_headers r.headers ++ END_LINE) := by
  refine ⟨?_, ?_, emit_headers_hs_insert_content_length, ?_⟩
  · intro r buf body h1 h2
    simp [Response.write, Response.handle_body, h1, h2, handle_writing, Headers.text]
  · intro r buf body h1 h2
    simp [Response.write, Response.handle_body, h1, h2, handle_writing,
      Headers.text, Encoding.text]
  · intro r buf h1
    constructor
    · simp [Response.write, Response.handle_body, h1]
    · intro hmem
      rcases List.mem_append.mp hmem with hmem' | hmem'
      · rcases List.mem_append.mp hmem' with hmem'' | hmem''
        · exact char_L_not_mem_response_line r hmem''
        · exact char_L_not_mem_emit_headers r.headers hmem''
      · exact absurd hmem' (by decide)

/-- C6 witness: the gzip clause of `claim_C6` applied to the concrete
response `resp_gzip_a`. -/
theorem claim_C6_witness :
    Response.write resp_gzip_a [] =
      [] ++ resp_gzip_a.handle_response_line ++ emit_headers resp_gzip_a.headers ++
        (header_emit "Content-Encoding" "gzip" ++
          (header_emit "Content-Length" (toString (gzip_compress (("hello").data)).length) ++
            END_LINE ++ gzip_compress (("hello").data))) :=
  claim_C6.2.1 resp_gzip_a [] (("hello").data) rfl rfl

theorem echo_accept_encoding {request : Request} {resp : Response}
    (h : Router.echo request = some resp) :
    resp.accept_encoding = request.header.accept_encoding := by
  simp only [Router.echo] at h
  split at h
  · injection h with h'
    subst h'
    rfl
  · split at h
    · exact absurd h (by simp)
    · injection h with h'
      subst h'
      rfl

theorem user_agent_accept_encoding {request : Request} {resp : Response}
    (h : Router.user_agent request = some resp) :
    resp.accept_encoding = request.header.accept_encoding := by
  simp only [Router.user_agent] at h
  split at h
  · exact absurd h (by simp)
  · injection h with h'
    subst h'
    rfl

theorem files_get_accept_encoding {r : Router} {request : Request} {fs : FS}
    {resp : Response} (h : Router.files_get r request fs = some resp) :
    resp.accept_encoding = request.header.accept_encoding := by
  simp only [Router.files_get] at h
  split at h
  · injection h with h'
    subst h'
    rfl
  · split at h
    · injection h with h'
      subst h'
      rfl
    · split at h
      · exact absurd h (by simp)
      · split at h
        · split at h
          · injection h with h'
            subst h'
            rfl
          · injection h with h'
            subst h'
            rfl
        · injection h with h'
          subst h'
          rfl

theorem files_post_accept_encoding {r : Router} {request : Request} {fs : FS}
    {resp : Response} {fs2 : FS}
    (h : Router.files_post r request fs = some (resp, fs2)) :
    resp.accept_encoding = request.header.accept_encoding := by
  simp only [Router.files_post] at h
  split at h
  · injection h with h'
    injection h' with ha hb
    subst ha
    rfl
  · split at h
    · injection h with h'
      injection h' with ha hb
      subst ha
      rfl
    · split at h
      · exact absurd h (by simp)
      · split at h
        · injection h with h'
          injection h' with ha hb
          subst ha
          rfl
        · injection h with h'
          injection h' with ha hb
          subst ha
          rfl

theorem files_accept_encoding {r : Router} {request : Request} {fs : FS}
    {resp : Response} {fs2 : FS}
    (h : Router.files r request fs = some (resp, fs2)) :
    resp.accept_encoding = request.header.accept_encoding := by
  simp only [Router.files] at h
  split at h
  · rename_i hm
    cases hfg : Router.files_get r request fs with
    | none => rw [hfg] at h; exact absurd h (by simp)
    | some resp' =>
      rw [hfg] at h
      simp only [Option.map_some'] at h
      injection h with h'
      injection h' with ha hb
      subst ha
      exact files_get_accept_encoding hfg
  · exact files_post_accept_encoding h

/-- C7: whatever route is taken (200, 201, 404 or 500), the response built by
Router::process carries `accept_encoding` equal to the request's negotiated
Accept-Encoding, which every response constructor copies from the request. -/
theorem claim_C7 (r : Router) (request : Request) (fs : FS) (resp : Response)
    (fs2 : FS) (h : Router.process r request fs = some (resp, fs2)) :
    resp.accept_encoding = request.header.accept_encoding := by
  simp only [Router.process] at h
  split at h
  · exact absurd h (by simp)
  · split at h
    · injection h with h'
      injection h' with ha hb
      subst ha
      rfl
    · split at h
      · cases he : Router.echo request with
        | none => rw [he] at h; exact absurd h (by simp)
        | some resp' =>
          rw [he] at h
          simp only [Option.map_some'] at h
          injection h with h'
          injection h' with ha hb
          subst ha
          exact echo_accept_encoding he
      · split at h
        · cases hu : Router.user_agent request with
          | none => rw [hu] at h; exact absurd h (by simp)
          | some resp' =>
            rw [hu] at h
            simp only [Option.map_some'] at h
            injection h with h'
            injection h' with ha hb
            subst ha
            exact user_agent_accept_encoding hu
        · split at h
          · exact files_accept_encoding h
          · injection h with h'
            injection h' with ha hb
            subst ha
            rfl

/-- POST /files/name request carrying a gzip negotiation, used as a concrete
instance for the C7 witness. -/
def req_post_files : Request :=
  { header := { method := Method.Post,
                url := { sections := ["files", "name"], query := none },
                version := Version.Http11,
                headers := [],
                accept_encoding := some Encoding.Gzip },
    body := some (("data").data) }

/-- C7 witness: the invariance applied to a concrete routed POST /files
request (201 outcome). -/
theorem claim_C7_witness :
    (Router.created req_post_files).accept_encoding =
      req_post_files.header.accept_encoding :=
  claim_C7 { directory := some "d" } req_post_files []
    (Router.created req_post_files)
    (fs_write [] (path_join "d" "name") (("data").data)) (by decide)

/-- POST /files/<name> request with body `b`, used to state the files
round-trip. -/
def files_post_request (name : String) (b : List Char) (hm : HeaderMap)
    (ae : Option Encoding) (q : Option String) : Request :=
  { header := { method := Method.Post,
                url := { sections := ["files", name], query := q },
                version := Version.Http11,
                headers := hm,
                accept_encoding := ae },
    body := some b }

/-- GET /files/<name> request, used to state the files round-trip. -/
def files_get_request (name : String) (hm : HeaderMap) (ae : Option Encoding)
    (q : Option String) (bd : Option (List Char)) : Request :=
  { header := { method := Method.Get,
                url := { sections := ["files", name], query := q },
                version := Version.Http11,
                headers := hm,
                accept_encoding := ae },
    body := bd }

theorem fs_read_fs_write (fs : FS) (path : String) (b : List Char) :
    fs_read (fs_write fs path b) path = some b := by
  simp [fs_read, fs_write]

/-- C8: with a configured serve directory, routing POST /files/<name> with
body `b` yields 201 and stores `b` under directory/<name>; routing a
subsequent GET /files/<name> against the resulting store yields 200 with
Content-Type application/octet-stream and body exactly `b`. -/
theorem claim_C8 (directory name : String) (b : List Char) (fs : FS)
    (hm hm2 : HeaderMap) (ae ae2 : Option Encoding) (q q2 : Option String)
    (bd : Option (List Char)) :
    Router.process { directory := some directory }
        (files_post_request name b hm ae q) fs =
      some (Router.created (files_post_request name b hm ae q),
            fs_write fs (path_join directory name) b)
    ∧ Router.process { directory := some directory }
        (files_get_request name hm2 ae2 q2 bd)
        (fs_write fs (path_join directory name) b) =
      some ({ version := Version.Http11, status := Status.Ok,
              headers := [Headers.ContentType ContentType.OctentStream],
              accept_encoding := ae2, body := some b },
            fs_write fs (path_join directory name) b) := by
  constructor
  · rfl
  · simp [Router.process, files_get_request, Router.files, Router.files_get,
      fs_try_exists, fs_read_fs_write, Router.ok, hs_insert]
